import Mathlib

/-!
Verification of the session/consensus subsystem of the YELPB repository
against its natural-language specification.

The embedding below is a shallow model of the TypeScript source:

* `src/src/services/sessionService.ts` — `castVote`, `markUserFinished`,
  `swipeRestaurant`, `getGroupWinner`, `subscribeToActivities`;
* `src/src/components/LobbyScreen.tsx` — `getMergedPreferences` and the
  fixed option vocabularies.

JavaScript objects used as string-keyed maps (`votes[category][option]`,
`swipes[restaurantId]`) are modelled as association lists preserving key
insertion order, which mirrors JS object key enumeration order for
string keys.  Missing-property access yielding `undefined` is modelled
with `Option`.
-/

namespace Yelpb

/-- One vote entry, `{ userId, userName, timestamp }` as pushed by
`castVote` in sessionService.ts. -/
structure UserVote where
  userId : String
  userName : String
  timestamp : Nat
deriving DecidableEq, Repr

/-- A category's vote map `Record<string, UserVote[]>`: JS object from
option string to voter list, modelled as an association list in key
insertion order. -/
abbrev OptionVotes := List (String × List UserVote)

/-- The five fixed preference categories of `SessionVotes`. -/
inductive Category
  | budget
  | cuisine
  | vibe
  | dietary
  | distance
deriving DecidableEq, Repr

/-- The session's vote ledger `SessionVotes`, one option map per
category. -/
def Ledger := Category → OptionVotes

/-- The vote ledger of a freshly created session: `joinSession` writes
`votes: { budget: {}, cuisine: {}, vibe: {}, dietary: {}, distance: {} }`. -/
def emptyLedger : Ledger := fun _ => []

/-- Membership test of a voter in one option's voter list. -/
def hasUser (l : List UserVote) (uid : String) : Bool :=
  l.any (fun v => v.userId == uid)

/-- Number of options of a category map whose voter list contains the
given voter. -/
def optionsWithUser (cv : OptionVotes) (uid : String) : Nat :=
  cv.countP (fun p => hasUser p.2 uid)

/-- The retraction loop of `castVote` (sessionService.ts lines 217-225):
for every option, filter out the voter's previous vote, and delete the
option's key when its list becomes empty. -/
def removeUserVotes (cv : OptionVotes) (uid : String) : OptionVotes :=
  (cv.map (fun p => (p.1, p.2.filter (fun v => v.userId != uid)))).filter
    (fun p => !p.2.isEmpty)

/-- The append step of `castVote` (lines 227-235): create the option's
key if absent, then push the new vote at the end of its list. -/
def addVote (cv : OptionVotes) (value : String) (v : UserVote) : OptionVotes :=
  if cv.any (fun p => p.1 == value) then
    cv.map (fun p => if p.1 == value then (p.1, p.2 ++ [v]) else p)
  else
    cv ++ [(value, [v])]

/-- `castVote(sessionCode, category, value, user)`: retract the user's
previous vote in the category, append the new one, and write back only
the field path `votes.${category}` — all other categories are left as
they were. -/
def castVote (votes : Ledger) (category : Category) (value : String)
    (uid uname : String) (now : Nat) : Ledger :=
  fun c =>
    if c = category then
      addVote (removeUserVotes (votes category) uid) value ⟨uid, uname, now⟩
    else
      votes c

/-- One `castVote` invocation's arguments. -/
structure CastCall where
  category : Category
  value : String
  userId : String
  userName : String
  timestamp : Nat

/-- A sequence of `castVote` calls applied to a fresh session's ledger. -/
def applyCasts (calls : List CastCall) : Ledger :=
  calls.foldl
    (fun st cl => castVote st cl.category cl.value cl.userId cl.userName cl.timestamp)
    emptyLedger

/-- Keys of a category map are pairwise distinct (JS object keys). -/
def keysNodup (cv : OptionVotes) : Prop :=
  (cv.map Prod.fst).Nodup

/- Helper lemmas about the vote-retraction data structure. -/

theorem optionsWithUser_removeUserVotes_self (cv : OptionVotes) (uid : String) :
    optionsWithUser (removeUserVotes cv uid) uid = 0 := by
  unfold optionsWithUser removeUserVotes
  rw [List.countP_eq_zero]
  intro p hp
  rw [List.mem_filter] at hp
  obtain ⟨hp, -⟩ := hp
  rw [List.mem_map] at hp
  obtain ⟨q, -, rfl⟩ := hp
  simp only [hasUser, List.any_eq_true, List.mem_filter]
  rintro ⟨v, ⟨-, hne⟩, heq⟩
  rw [bne_iff_ne] at hne
  exact hne (by simpa using heq)

theorem optionsWithUser_removeUserVotes_le (cv : OptionVotes) (w uid : String) :
    optionsWithUser (removeUserVotes cv w) uid ≤ optionsWithUser cv uid := by
  unfold optionsWithUser removeUserVotes
  calc ((cv.map (fun p => (p.1, p.2.filter (fun v => v.userId != w)))).filter
          (fun p => !p.2.isEmpty)).countP (fun p => hasUser p.2 uid)
      ≤ (cv.map (fun p => (p.1, p.2.filter (fun v => v.userId != w)))).countP
          (fun p => hasUser p.2 uid) :=
        List.Sublist.countP_le _ (List.filter_sublist _)
    _ ≤ cv.countP (fun p => hasUser p.2 uid) := by
        rw [List.countP_map]
        apply List.countP_mono_left
        intro p _ hp
        simp only [Function.comp_apply, hasUser, List.any_eq_true] at hp ⊢
        obtain ⟨v, hv, hveq⟩ := hp
        exact ⟨v, List.mem_of_mem_filter hv, hveq⟩

theorem keysNodup_removeUserVotes (cv : OptionVotes) (uid : String)
    (h : keysNodup cv) : keysNodup (removeUserVotes cv uid) := by
  unfold keysNodup removeUserVotes
  apply List.Nodup.sublist (List.Sublist.map Prod.fst (List.filter_sublist _))
  rw [List.map_map]
  exact h

theorem keysNodup_addVote (cv : OptionVotes) (value : String) (v : UserVote)
    (h : keysNodup cv) : keysNodup (addVote cv value v) := by
  unfold keysNodup addVote
  split
  · rw [List.map_map]
    have : (Prod.fst ∘ fun p : String × List UserVote =>
        if p.1 == value then (p.1, p.2 ++ [v]) else p) = Prod.fst := by
      funext p
      simp only [Function.comp_apply]
      split <;> rfl
    rw [this]
    exact h
  · rename_i hany
    rw [List.map_append]
    simp only [List.map_cons, List.map_nil]
    rw [List.nodup_append]
    refine ⟨h, List.nodup_singleton _, ?_⟩
    intro a ha hb
    simp only [List.mem_singleton] at hb
    subst hb
    rw [List.mem_map] at ha
    obtain ⟨p, hp, hfst⟩ := ha
    rw [List.any_eq_true] at hany
    exact hany ⟨p, hp, by simp [hfst]⟩

theorem countP_key_le_one (cv : OptionVotes) (value : String)
    (h : keysNodup cv) : cv.countP (fun p => p.1 == value) ≤ 1 := by
  induction cv with
  | nil => simp
  | cons q cv ih =>
    unfold keysNodup at h
    rw [List.map_cons, List.nodup_cons] at h
    obtain ⟨hq, hcv⟩ := h
    rw [List.countP_cons]
    by_cases hqv : q.1 == value
    · have hzero : cv.countP (fun p => p.1 == value) = 0 := by
        rw [List.countP_eq_zero]
        intro p hp hpv
        apply hq
        rw [List.mem_map]
        refine ⟨p, hp, ?_⟩
        rw [beq_iff_eq] at hqv hpv
        rw [hpv, hqv]
      rw [hzero, if_pos hqv]
    · rw [if_neg hqv]
      simpa using ih hcv

theorem optionsWithUser_addVote_of_zero (cv : OptionVotes) (value : String)
    (v : UserVote) (uid : String) (hn : keysNodup cv)
    (h0 : optionsWithUser cv uid = 0) :
    optionsWithUser (addVote cv value v) uid ≤ 1 := by
  unfold optionsWithUser addVote
  unfold optionsWithUser at h0
  split
  · rw [List.countP_map]
    calc cv.countP ((fun p => hasUser p.2 uid) ∘ fun p =>
            if p.1 == value then (p.1, p.2 ++ [v]) else p)
        ≤ cv.countP (fun p => p.1 == value) := by
          apply List.countP_mono_left
          intro p hp hpred
          by_contra hne
          simp only [Function.comp_apply] at hpred
          rw [if_neg hne] at hpred
          have := List.countP_eq_zero.mp h0 p hp
          exact this hpred
      _ ≤ 1 := countP_key_le_one cv value hn
  · rw [List.countP_append]
    rw [h0]
    simpa using List.countP_le_length (l := [(value, [v])])
      (p := fun p => hasUser p.2 uid)

theorem optionsWithUser_addVote_other (cv : OptionVotes) (value : String)
    (v : UserVote) (uid : String) (hne : v.userId ≠ uid) :
    optionsWithUser (addVote cv value v) uid = optionsWithUser cv uid := by
  unfold optionsWithUser addVote
  have hsame : ∀ l : List UserVote, hasUser (l ++ [v]) uid = hasUser l uid := by
    intro l
    simp only [hasUser, List.any_append, List.any_cons, List.any_nil]
    have : (v.userId == uid) = false := by simpa using hne
    rw [this]
    simp
  split
  · rw [List.countP_map]
    apply List.countP_congr
    intro p _
    simp only [Function.comp_apply]
    split
    · rename_i hpv
      constructor
      · intro h
        rw [hsame] at h
        exact h
      · intro h
        rw [hsame]
        exact h
    · exact Iff.rfl
  · rw [List.countP_append]
    have : (hasUser [v] uid) = false := by
      simp only [hasUser, List.any_cons, List.any_nil]
      have : (v.userId == uid) = false := by simpa using hne
      rw [this]
      simp
    simp [this]

/-- The invariant maintained by the vote ledger: unique option keys and
each voter in at most one option per category. -/
def LedgerInv (st : Ledger) : Prop :=
  ∀ c : Category, keysNodup (st c) ∧ ∀ uid : String, optionsWithUser (st c) uid ≤ 1

theorem ledgerInv_empty : LedgerInv emptyLedger := by
  intro c
  constructor
  · simp [emptyLedger, keysNodup]
  · intro uid
    simp [emptyLedger, optionsWithUser]

theorem ledgerInv_castVote (st : Ledger) (c : Category) (value : String)
    (uid uname : String) (now : Nat) (h : LedgerInv st) :
    LedgerInv (castVote st c value uid uname now) := by
  intro c'
  unfold castVote
  by_cases hc : c' = c
  · rw [if_pos hc]
    obtain ⟨hn, hcount⟩ := h c
    have hn' : keysNodup (removeUserVotes (st c) uid) :=
      keysNodup_removeUserVotes _ _ hn
    constructor
    · exact keysNodup_addVote _ _ _ hn'
    · intro uid'
      by_cases huid : uid' = uid
      · subst huid
        exact optionsWithUser_addVote_of_zero _ _ _ _ hn'
          (optionsWithUser_removeUserVotes_self _ _)
      · rw [optionsWithUser_addVote_other _ _ _ _ (by simpa using Ne.symm huid)]
        calc optionsWithUser (removeUserVotes (st c) uid) uid'
            ≤ optionsWithUser (st c) uid' := optionsWithUser_removeUserVotes_le _ _ _
          _ ≤ 1 := hcount uid'
  · rw [if_neg hc]
    exact h c'

theorem ledgerInv_applyCasts (calls : List CastCall) : LedgerInv (applyCasts calls) := by
  unfold applyCasts
  have : ∀ (st : Ledger), LedgerInv st → LedgerInv (calls.foldl
      (fun st cl => castVote st cl.category cl.value cl.userId cl.userName cl.timestamp) st) := by
    induction calls with
    | nil => intro st h; exact h
    | cons cl calls ih =>
      intro st h
      exact ih _ (ledgerInv_castVote _ _ _ _ _ _ h)
  exact this emptyLedger ledgerInv_empty

/-- C3: for every voter v and category c, after any sequence of castVote
calls the category's vote map contains v in at most one option's voter
list, and casting a vote in category c leaves every other category's
votes untouched. -/
theorem castVote_retraction_invariant :
    (∀ (calls : List CastCall) (c : Category) (uid : String),
        optionsWithUser (applyCasts calls c) uid ≤ 1) ∧
    (∀ (votes : Ledger) (c : Category) (value uid uname : String) (now : Nat)
        (c' : Category), c' ≠ c →
        castVote votes c value uid uname now c' = votes c') := by
  constructor
  · intro calls c uid
    exact (ledgerInv_applyCasts calls c).2 uid
  · intro votes c value uid uname now c' hne
    unfold castVote
    rw [if_neg hne]

/-- Witness for C3 at a concrete call sequence: a voter recasting a vote
within the budget category ends with one entry, and a budget cast does
not touch the cuisine category. -/
theorem castVote_retraction_invariant_witness :
    optionsWithUser
      (applyCasts
        [⟨Category.budget, "$", "u1", "Alice", 1⟩,
         ⟨Category.budget, "$$", "u1", "Alice", 2⟩] Category.budget) "u1" ≤ 1 ∧
    castVote emptyLedger Category.budget "$" "u1" "Alice" 1 Category.cuisine =
      emptyLedger Category.cuisine :=
  ⟨castVote_retraction_invariant.1 _ _ _,
   castVote_retraction_invariant.2 emptyLedger Category.budget "$" "u1" "Alice" 1
     Category.cuisine (by decide)⟩

/-! Swipe ledger (`swipeRestaurant`, sessionService.ts lines 360-392). -/

/-- One swipe entry `{ userId, userName, timestamp }` as pushed by
`swipeRestaurant`. -/
structure SwipeEntry where
  userId : String
  userName : String
  timestamp : Nat
deriving DecidableEq, Repr

/-- JS property access `s.oderId` on a swipe entry: the source filters
the likes list with `s.oderId !== userId` (line 380), but swipe entries
have no `oderId` field, so this access always yields `undefined`,
modelled as `none`. -/
def oderId (_ : SwipeEntry) : Option String := none

/-- Per-restaurant swipe record `{ likes: [...], dislikes: [...] }`. -/
structure RestSwipes where
  likes : List SwipeEntry
  dislikes : List SwipeEntry
deriving DecidableEq, Repr

/-- The session's swipe ledger `data.swipes`: JS object from restaurant
id to its swipe record, modelled as an association list in key insertion
order. -/
abbrev Swipes := List (String × RestSwipes)

/-- Swipe direction: right = like, left = dislike. -/
inductive Direction
  | left
  | right
deriving DecidableEq, Repr

/-- The mutation `swipeRestaurant` performs on one restaurant's record:
filter likes by the misspelled key `oderId` (which removes nothing,
since `undefined !== userId` is always true for a string userId),
filter dislikes by `userId`, then push the new swipe. -/
def swipeUpdate (rs : RestSwipes) (direction : Direction)
    (uid uname : String) (now : Nat) : RestSwipes :=
  let likes := rs.likes.filter (fun s => oderId s != some uid)
  let dislikes := rs.dislikes.filter (fun s => s.userId != uid)
  match direction with
  | Direction.right => ⟨likes ++ [⟨uid, uname, now⟩], dislikes⟩
  | Direction.left => ⟨likes, dislikes ++ [⟨uid, uname, now⟩]⟩

/-- `swipeRestaurant(sessionCode, restaurantId, direction, userId,
userName)`: create the restaurant's entry if absent, then apply the
swipe mutation to it. -/
def swipeRestaurant (swipes : Swipes) (rid : String) (direction : Direction)
    (uid uname : String) (now : Nat) : Swipes :=
  let withEntry :=
    if swipes.any (fun p => p.1 == rid) then swipes
    else swipes ++ [(rid, ⟨[], []⟩)]
  withEntry.map (fun p =>
    if p.1 == rid then (p.1, swipeUpdate p.2 direction uid uname now) else p)

/-- The swipe record stored for a restaurant, `swipes[restaurantId]`
with `{ likes: [], dislikes: [] }` when absent. -/
def swipesFor (swipes : Swipes) (rid : String) : RestSwipes :=
  (List.lookup rid swipes).getD ⟨[], []⟩

/-- C1: the claim says a like, then dislike, then like by one user on
one restaurant leaves exactly one entry for that user in the like list.
The code violates this: the likes filter keys on the misspelled field
`oderId`, so the stale first like is never removed and the user ends
with TWO like entries (and zero dislikes) after like-dislike-like. -/
theorem swipeRestaurant_like_dislike_like_bug :
    (swipesFor
      (swipeRestaurant
        (swipeRestaurant
          (swipeRestaurant [] "r1" Direction.right "u1" "Alice" 1)
          "r1" Direction.left "u1" "Alice" 2)
        "r1" Direction.right "u1" "Alice" 3)
      "r1").likes.countP (fun s => s.userId == "u1") = 2 ∧
    (swipesFor
      (swipeRestaurant
        (swipeRestaurant
          (swipeRestaurant [] "r1" Direction.right "u1" "Alice" 1)
          "r1" Direction.left "u1" "Alice" 2)
        "r1" Direction.right "u1" "Alice" 3)
      "r1").dislikes.countP (fun s => s.userId == "u1") = 0 := by
  constructor <;> rfl

/-! The finished-users list (`markUserFinished`, sessionService.ts
lines 268-289). -/

/-- `markUserFinished(sessionCode, userId)`: if the userId is already in
`finishedUsers`, skip the store write; otherwise append it and write.
The boolean records whether an `updateDoc` write was issued. -/
def markUserFinished (finished : List String) (uid : String) :
    List String × Bool :=
  if uid ∈ finished then (finished, false) else (finished ++ [uid], true)

/-- A sequence of `markUserFinished` calls applied to a fresh session's
empty `finishedUsers` list. -/
def applyFinished (calls : List String) : List String :=
  calls.foldl (fun st u => (markUserFinished st u).1) []

theorem applyFinished_nodup (calls : List String) : (applyFinished calls).Nodup := by
  unfold applyFinished
  have : ∀ st : List String, st.Nodup → (calls.foldl
      (fun st u => (markUserFinished st u).1) st).Nodup := by
    induction calls with
    | nil => intro st h; exact h
    | cons u calls ih =>
      intro st h
      apply ih
      by_cases hu : u ∈ st
      · simpa [markUserFinished, hu] using h
      · simp [markUserFinished, hu, List.nodup_append, h]
  exact this [] List.nodup_nil

/-- C10: `markUserFinished` is idempotent per user — a userId already in
the finished list causes no write and no change, and after any sequence
of calls starting from the fresh empty list each userId occurs at most
once. -/
theorem markUserFinished_idempotent :
    (∀ (finished : List String) (uid : String), uid ∈ finished →
        markUserFinished finished uid = (finished, false)) ∧
    (∀ (calls : List String) (uid : String),
        (applyFinished calls).count uid ≤ 1) := by
  constructor
  · intro finished uid h
    unfold markUserFinished
    rw [if_pos h]
  · intro calls uid
    exact List.nodup_iff_count_le_one.mp (applyFinished_nodup calls) uid

/-- Witness for C10: marking "u1" finished twice leaves a single-entry
list, the second call issuing no write. -/
theorem markUserFinished_idempotent_witness :
    markUserFinished ["u1"] "u1" = (["u1"], false) ∧
    (applyFinished ["u1", "u1"]).count "u1" ≤ 1 :=
  ⟨markUserFinished_idempotent.1 ["u1"] "u1" (by decide),
   markUserFinished_idempotent.2 ["u1", "u1"] "u1"⟩

/-! Winner resolver (`getGroupWinner`, sessionService.ts lines 396-465). -/

/-- A candidate restaurant as far as the resolver consumes it: only the
(stringified) id is inspected (`r.id.toString()`). -/
structure Restaurant where
  id : String
deriving DecidableEq, Repr

/-- The Tie-Break Service response `{ winner_id, reason }`; either field
may be absent or empty. -/
structure TieResolution where
  winner_id : Option String
  reason : Option String
deriving DecidableEq, Repr

/-- The resolver's return value `{ restaurantId, likeCount, reason }`. -/
structure GroupWinner where
  restaurantId : String
  likeCount : Nat
  reason : String
deriving DecidableEq, Repr

/-- JS truthiness of an optional string: `undefined`, `null` and the
empty string are falsy. -/
def strTruthy (o : Option String) : Bool :=
  match o with
  | none => false
  | some s => s != ""

/-- JS `a || b` on an optional string with a string default. -/
def strOrDefault (o : Option String) (d : String) : String :=
  match o with
  | none => d
  | some s => if s == "" then d else s

/-- The per-restaurant like totals `restaurantLikes` computed from the
swipe ledger. -/
def likeTotals (swipes : Swipes) : List (String × Nat) :=
  swipes.map (fun p => (p.1, p.2.likes.length))

/-- The running maximum `maxLikes` over the like totals (starts at 0,
updated whenever a larger count is seen). -/
def maxLikes (swipes : Swipes) : Nat :=
  (likeTotals swipes).foldl (fun m p => max m p.2) 0

/-- `winners`: all restaurant ids whose like total equals `maxLikes`. -/
def winners (swipes : Swipes) : List String :=
  ((likeTotals swipes).filter (fun p => p.2 == maxLikes swipes)).map Prod.fst

/-- `getGroupWinner`, parameterized by the external Tie-Break Service
(`apiService.resolveTie`, an unreliable call modelled as a function into
`Except`) and by the random index `Math.floor(Math.random() *
winners.length)` used for the fallback pick.  Returns `none` when no
restaurant has any like. -/
def getGroupWinner (swipes : Swipes) (restaurants : List Restaurant)
    (service : List Restaurant → Except String TieResolution)
    (k : Nat) : Option GroupWinner :=
  if maxLikes swipes = 0 then none
  else
    let ws := winners swipes
    if ws.length = 1 then
      some ⟨ws.getD 0 "", maxLikes swipes, "Most voted by the group!"⟩
    else
      let tiedRestaurants := restaurants.filter (fun r => ws.contains r.id)
      let fallback : GroupWinner :=
        ⟨ws.getD k "", maxLikes swipes, "Randomly selected tie-breaker"⟩
      if tiedRestaurants.isEmpty then some fallback
      else
        match service tiedRestaurants with
        | Except.ok res =>
            if strTruthy res.winner_id then
              some ⟨(res.winner_id).getD "", maxLikes swipes,
                strOrDefault res.reason "Selected by AI tie-breaker"⟩
            else some fallback
        | Except.error _ => some fallback

/-- Whether the resolver reaches the Tie-Break Service call: only in
the tie branch, and only when some tied winner appears in the shared
restaurant list. -/
def tieBreakInvoked (swipes : Swipes) (restaurants : List Restaurant) : Bool :=
  maxLikes swipes != 0 &&
  (winners swipes).length != 1 &&
  !(restaurants.filter (fun r => (winners swipes).contains r.id)).isEmpty

/-- C6: with a unique like-count leader the resolver returns it with
reason "Most voted by the group!", for every behaviour of the Tie-Break
Service and of the random source, and the service is not invoked. -/
theorem getGroupWinner_single_leader (swipes : Swipes)
    (restaurants : List Restaurant) (a : String)
    (h0 : 0 < maxLikes swipes) (hw : winners swipes = [a]) :
    (∀ (service : List Restaurant → Except String TieResolution) (k : Nat),
        getGroupWinner swipes restaurants service k =
          some ⟨a, maxLikes swipes, "Most voted by the group!"⟩) ∧
    tieBreakInvoked swipes restaurants = false := by
  constructor
  · intro service k
    unfold getGroupWinner
    rw [if_neg (Nat.pos_iff_ne_zero.mp h0)]
    simp only [hw]
    rfl
  · unfold tieBreakInvoked
    rw [hw]
    simp

/-- Witness for C6: likes {A:3, B:1} yield A with the single-leader
reason, with the service modelled as always failing. -/
theorem getGroupWinner_single_leader_witness :
    getGroupWinner
      [("A", ⟨[⟨"u1", "Alice", 1⟩, ⟨"u2", "Bob", 2⟩, ⟨"u3", "Cara", 3⟩], []⟩),
       ("B", ⟨[⟨"u1", "Alice", 4⟩], []⟩)]
      [⟨"A"⟩, ⟨"B"⟩] (fun _ => Except.error "down") 0 =
      some ⟨"A", 3, "Most voted by the group!"⟩ ∧
    tieBreakInvoked
      [("A", ⟨[⟨"u1", "Alice", 1⟩, ⟨"u2", "Bob", 2⟩, ⟨"u3", "Cara", 3⟩], []⟩),
       ("B", ⟨[⟨"u1", "Alice", 4⟩], []⟩)]
      [⟨"A"⟩, ⟨"B"⟩] = false :=
  ⟨((getGroupWinner_single_leader _ _ "A" (by decide) (by decide)).1 _ 0),
   (getGroupWinner_single_leader
      [("A", ⟨[⟨"u1", "Alice", 1⟩, ⟨"u2", "Bob", 2⟩, ⟨"u3", "Cara", 3⟩], []⟩),
       ("B", ⟨[⟨"u1", "Alice", 4⟩], []⟩)]
      [⟨"A"⟩, ⟨"B"⟩] "A" (by decide) (by decide)).2⟩

theorem foldl_max_pairs_all_zero (l : List (String × Nat)) (a : Nat)
    (h : ∀ p ∈ l, p.2 = 0) : l.foldl (fun m p => max m p.2) a = a := by
  induction l generalizing a with
  | nil => rfl
  | cons p l ih =>
    have hp : p.2 = 0 := h p (List.mem_cons_self _ _)
    have : max a p.2 = a := by
      rw [hp]
      exact Nat.max_zero a
    simp only [List.foldl_cons, this]
    exact ih a (fun q hq => h q (List.mem_cons_of_mem _ hq))

/-- C7: when no restaurant in the swipe ledger has any like — in
particular for the empty ledger — the resolver returns the terminal
"no winner" value `none` rather than an error, for every service
behaviour and random source. -/
theorem getGroupWinner_no_likes (swipes : Swipes)
    (h : ∀ p ∈ swipes, p.2.likes = [])
    (service : List Restaurant → Except String TieResolution)
    (restaurants : List Restaurant) (k : Nat) :
    getGroupWinner swipes restaurants service k = none := by
  have hmax : maxLikes swipes = 0 := by
    unfold maxLikes
    apply foldl_max_pairs_all_zero
    intro p hp
    unfold likeTotals at hp
    rw [List.mem_map] at hp
    obtain ⟨q, hq, rfl⟩ := hp
    simp [h q hq]
  unfold getGroupWinner
  rw [if_pos hmax]

/-- Witness for C7 at the empty swipe ledger. -/
theorem getGroupWinner_no_likes_witness :
    getGroupWinner [] [⟨"A"⟩] (fun _ => Except.error "down") 0 = none :=
  getGroupWinner_no_likes [] (by simp) (fun _ => Except.error "down") [⟨"A"⟩] 0

/-- C2 counterexample: likes {A:1, B:1} tie, the service answers with id
"C" which is NOT among the tied winners, yet the resolver returns "C"
with the service's justification — the code never checks the returned
id against `winners`, contradicting the claim that such an id is
discarded in favour of a random tied winner. -/
theorem getGroupWinner_foreign_id_counterexample :
    getGroupWinner
      [("A", ⟨[⟨"u1", "Alice", 1⟩], []⟩), ("B", ⟨[⟨"u2", "Bob", 2⟩], []⟩)]
      [⟨"A"⟩, ⟨"B"⟩]
      (fun _ => Except.ok ⟨some "C", some "because"⟩) 0 =
      some ⟨"C", 1, "because"⟩ ∧
    "C" ∉ winners
      [("A", ⟨[⟨"u1", "Alice", 1⟩], []⟩), ("B", ⟨[⟨"u2", "Bob", 2⟩], []⟩)] := by
  constructor
  · rfl
  · decide

/-- C2 amended: on a tie the resolver always returns a decision and
never propagates a service error; when the service call fails it
returns the randomly indexed member of the tied winners with reason
"Randomly selected tie-breaker"; when the service is reachable (some
tied winner occurs in the shared restaurant list) and returns a
non-empty id, the resolver returns that id unvalidated, with the
service's justification (defaulted when empty). -/
theorem getGroupWinner_tie_resolution (swipes : Swipes)
    (restaurants : List Restaurant)
    (h0 : 0 < maxLikes swipes) (h1 : (winners swipes).length ≠ 1) :
    (∀ (service : List Restaurant → Except String TieResolution) (k : Nat),
        (getGroupWinner swipes restaurants service k).isSome) ∧
    (∀ (e : String) (k : Nat), k < (winners swipes).length →
        getGroupWinner swipes restaurants (fun _ => Except.error e) k =
          some ⟨(winners swipes).getD k "", maxLikes swipes,
            "Randomly selected tie-breaker"⟩ ∧
        (winners swipes).getD k "" ∈ winners swipes) ∧
    (∀ (res : TieResolution) (k : Nat),
        (restaurants.filter (fun r => (winners swipes).contains r.id)).isEmpty = false →
        strTruthy res.winner_id = true →
        getGroupWinner swipes restaurants (fun _ => Except.ok res) k =
          some ⟨(res.winner_id).getD "", maxLikes swipes,
            strOrDefault res.reason "Selected by AI tie-breaker"⟩) ∧
    (∀ (res : TieResolution) (k : Nat),
        strTruthy res.winner_id = false →
        getGroupWinner swipes restaurants (fun _ => Except.ok res) k =
          some ⟨(winners swipes).getD k "", maxLikes swipes,
            "Randomly selected tie-breaker"⟩) := by
  have hm := Nat.pos_iff_ne_zero.mp h0
  refine ⟨?_, ?_, ?_, ?_⟩
  · intro service k
    unfold getGroupWinner
    rw [if_neg hm, if_neg h1]
    by_cases he : (restaurants.filter (fun r => (winners swipes).contains r.id)).isEmpty
    · simp only [he]
      rfl
    · simp only [eq_false_of_ne_true he]
      cases service (restaurants.filter (fun r => (winners swipes).contains r.id)) with
      | ok res =>
        by_cases ht : strTruthy res.winner_id
        · simp [ht]
        · simp [eq_false_of_ne_true ht]
      | error e => simp
  · intro e k hk
    constructor
    · unfold getGroupWinner
      rw [if_neg hm, if_neg h1]
      by_cases he : (restaurants.filter (fun r => (winners swipes).contains r.id)).isEmpty
      · simp only [he]
        rfl
      · simp only [eq_false_of_ne_true he]
        rfl
    · rw [List.getD_eq_getElem _ _ hk]
      exact List.getElem_mem _
  · intro res k he ht
    unfold getGroupWinner
    rw [if_neg hm, if_neg h1]
    simp only [he, ht]
    rfl
  · intro res k ht
    unfold getGroupWinner
    rw [if_neg hm, if_neg h1]
    by_cases he : (restaurants.filter (fun r => (winners swipes).contains r.id)).isEmpty
    · simp only [he]
      rfl
    · simp only [eq_false_of_ne_true he, ht]
      rfl

/-- Witness for C2 amended: likes {A:1, B:1}; the failing service yields
the random pick A with the random-fallback reason, and an ok service
answering B is taken with its justification. -/
theorem getGroupWinner_tie_resolution_witness :
    (getGroupWinner
      [("A", ⟨[⟨"u1", "Alice", 1⟩], []⟩), ("B", ⟨[⟨"u2", "Bob", 2⟩], []⟩)]
      [⟨"A"⟩, ⟨"B"⟩] (fun _ => Except.error "down") 0).isSome ∧
    getGroupWinner
      [("A", ⟨[⟨"u1", "Alice", 1⟩], []⟩), ("B", ⟨[⟨"u2", "Bob", 2⟩], []⟩)]
      [⟨"A"⟩, ⟨"B"⟩] (fun _ => Except.error "down") 0 =
      some ⟨"A", 1, "Randomly selected tie-breaker"⟩ ∧
    getGroupWinner
      [("A", ⟨[⟨"u1", "Alice", 1⟩], []⟩), ("B", ⟨[⟨"u2", "Bob", 2⟩], []⟩)]
      [⟨"A"⟩, ⟨"B"⟩] (fun _ => Except.ok ⟨some "B", some "closer"⟩) 0 =
      some ⟨"B", 1, "closer"⟩ := by
  have h := getGroupWinner_tie_resolution
    [("A", ⟨[⟨"u1", "Alice", 1⟩], []⟩), ("B", ⟨[⟨"u2", "Bob", 2⟩], []⟩)]
    [⟨"A"⟩, ⟨"B"⟩] (by decide) (by decide)
  exact ⟨h.1 (fun _ => Except.error "down") 0,
    (h.2.1 "down" 0 (by decide)).1,
    h.2.2.1 ⟨some "B", some "closer"⟩ 0 (by decide) (by decide)⟩

/-! Preference merge engine (`getMergedPreferences`, LobbyScreen.tsx
lines 235-301) and the fixed option vocabularies (lines 23-27). -/

/-- LobbyScreen's `budgetOptions`. -/
def budgetOptions : List String := ["$", "$$", "$$$", "$$$$"]

/-- LobbyScreen's `cuisineOptions`. -/
def cuisineOptions : List String :=
  ["Italian", "Japanese", "Mexican", "French", "Thai", "Indian", "Korean", "Spanish"]

/-- LobbyScreen's `vibeOptions`. -/
def vibeOptions : List String :=
  ["Casual", "Fine Dining", "Trendy", "Cozy", "Lively", "Romantic", "Family-Friendly"]

/-- LobbyScreen's `dietaryOptions`. -/
def dietaryOptions : List String :=
  ["None", "Vegetarian", "Vegan", "Gluten-Free", "Halal", "Kosher"]

/-- LobbyScreen's `distanceOptions`. -/
def distanceOptions : List String := ["0.5 mi", "1 mi", "2 mi", "5 mi", "10 mi"]

/-- The cheapness ranking `budgetRank` inside `getMergedPreferences`. -/
def budgetRank : List String := ["$", "$$", "$$$", "$$$$"]

/-- The radius ranking `distanceRank` inside `getMergedPreferences`. -/
def distanceRank : List String := ["0.5 mi", "1 mi", "2 mi", "5 mi", "10 mi"]

/-- The fixed dietary priority order `dietaryPriority`. -/
def dietaryPriority : List String :=
  ["Vegan", "Vegetarian", "Gluten-Free", "Halal", "Kosher", "None"]

/-- LobbyScreen's `getVoteCount`: `(userVotes[category][value] || []).length`. -/
def getVoteCount (cv : OptionVotes) (value : String) : Nat :=
  ((List.lookup value cv).getD []).length

/-- JS `Array.prototype.indexOf`: first index of the element, `-1` when
absent. -/
def jsIndexOf (l : List String) (s : String) : Int :=
  match l with
  | [] => -1
  | a :: t =>
      if a == s then 0
      else
        let r := jsIndexOf t s
        if r < 0 then -1 else r + 1

/-- The `voteCounts` array inside `getTopVoted`: each option paired with
its vote count, keeping only options with at least one vote. -/
def voteCounts (cv : OptionVotes) (opts : List String) : List (String × Nat) :=
  (opts.map (fun opt => (opt, getVoteCount cv opt))).filter (fun v => decide (0 < v.2))

/-- `maxVotes` inside `getTopVoted`: `Math.max(...counts)` over the
positive counts (equal to a fold of `max` from 0 since every retained
count is positive). -/
def topCount (cv : OptionVotes) (opts : List String) : Nat :=
  ((voteCounts cv opts).map Prod.snd).foldl max 0

/-- LobbyScreen's `getTopVoted`: the options tied for the most votes,
empty when no option got a vote. -/
def getTopVoted (cv : OptionVotes) (opts : List String) : List String :=
  if (voteCounts cv opts).isEmpty then []
  else ((voteCounts cv opts).filter (fun v => v.2 == topCount cv opts)).map Prod.fst

/-- The dietary for-loop of `getMergedPreferences`: the first option of
the priority list that received at least one vote (`break` on hit). -/
def firstVoted (l : List String) (cv : OptionVotes) : Option String :=
  match l with
  | [] => none
  | d :: rest => if 0 < getVoteCount cv d then some d else firstVoted rest cv

/-- The requesting client's own locally-selected (unvoted) choices, the
per-category fallbacks of `getMergedPreferences`. -/
structure LocalSelections where
  budget : String
  cuisine : String
  vibe : String
  dietary : String
  distance : String
deriving DecidableEq, Repr

/-- The record returned by `getMergedPreferences` (LobbyScreen.tsx lines
293-301): merged values plus tie disclosure for cuisine and vibe only. -/
structure MergedPreferences where
  cuisine : String
  budget : String
  vibe : String
  dietary : String
  distance : String
  hasCuisineTie : Bool
  hasVibeTie : Bool
  cuisineOptions : List String
  vibeOptions : List String
deriving DecidableEq, Repr

/-- The budget branch: among the top-voted budget options, `reduce` to
the one with the lowest `budgetRank` index; fall back to the local
selection when nobody voted. -/
def mergedBudgetOf (cv : OptionVotes) (fb : String) : String :=
  match getTopVoted cv budgetOptions with
  | [] => fb
  | h :: t =>
      t.foldl (fun lowest current =>
        if jsIndexOf budgetRank current < jsIndexOf budgetRank lowest then current
        else lowest) h

/-- The distance branch: among the top-voted distance options, `reduce`
to the one with the highest `distanceRank` index. -/
def mergedDistanceOf (cv : OptionVotes) (fb : String) : String :=
  match getTopVoted cv distanceOptions with
  | [] => fb
  | h :: t =>
      t.foldl (fun highest current =>
        if jsIndexOf distanceRank highest < jsIndexOf distanceRank current then current
        else highest) h

/-- LobbyScreen's `getMergedPreferences`, as a pure function of the vote
ledger snapshot and the local unvoted selections. -/
def getMergedPreferences (votes : Ledger) (sel : LocalSelections) : MergedPreferences :=
  let cuisineVotes := getTopVoted (votes Category.cuisine) cuisineOptions
  let vibeVotes := getTopVoted (votes Category.vibe) vibeOptions
  { cuisine :=
      if 0 < cuisineVotes.length then String.intercalate " " cuisineVotes
      else sel.cuisine
    budget := mergedBudgetOf (votes Category.budget) sel.budget
    vibe :=
      if 0 < vibeVotes.length then String.intercalate " " vibeVotes
      else sel.vibe
    dietary := (firstVoted dietaryPriority (votes Category.dietary)).getD sel.dietary
    distance := mergedDistanceOf (votes Category.distance) sel.distance
    hasCuisineTie := decide (1 < cuisineVotes.length)
    hasVibeTie := decide (1 < vibeVotes.length)
    cuisineOptions := cuisineVotes
    vibeOptions := vibeVotes }

/-- Specification-side reading of §4.2: an option is top-voted in a
category when it has at least one vote and no option of the category
out-votes it. -/
def specIsTopVoted (cv : OptionVotes) (opts : List String) (b : String) : Prop :=
  b ∈ opts ∧ 0 < getVoteCount cv b ∧
    ∀ x ∈ opts, getVoteCount cv x ≤ getVoteCount cv b

/-- Specification-side reading of §4.2's tie disclosure: the literal
list of options tied for the most votes in a category. -/
def specTiedFor (cv : OptionVotes) (opts : List String) : List String :=
  opts.filter (fun o =>
    decide (0 < getVoteCount cv o) &&
    decide (∀ x ∈ opts, getVoteCount cv x ≤ getVoteCount cv o))

/-- Specification-side reading of the claim: a tie among ≥ 2 options was
present in the budget category. -/
def specBudgetTie (votes : Ledger) : Bool :=
  decide (1 < (specTiedFor (votes Category.budget) budgetOptions).length)

/-- The spec's cheapness order on price tiers, `$ < $$ < $$$ < $$$$`. -/
def priceLevel : String → Nat
  | "$" => 1
  | "$$" => 2
  | "$$$" => 3
  | "$$$$" => 4
  | _ => 5

/-- The spec's restrictiveness order on dietary options, `Vegan >
Vegetarian > Gluten-Free > Halal > Kosher > None` (0 = most
restrictive). -/
def dietaryRank : String → Nat
  | "Vegan" => 0
  | "Vegetarian" => 1
  | "Gluten-Free" => 2
  | "Halal" => 3
  | "Kosher" => 4
  | "None" => 5
  | _ => 6

/- Helper lemmas about `getTopVoted`. -/

theorem foldl_max_le_acc (l : List Nat) (a : Nat) : a ≤ l.foldl max a := by
  induction l generalizing a with
  | nil => exact Nat.le_refl a
  | cons b l ih => exact Nat.le_trans (Nat.le_max_left a b) (ih (max a b))

theorem le_foldl_max_of_mem (l : List Nat) (a x : Nat) (h : x ∈ l) :
    x ≤ l.foldl max a := by
  induction l generalizing a with
  | nil => cases h
  | cons b l ih =>
    rcases List.mem_cons.mp h with rfl | h
    · exact Nat.le_trans (Nat.le_max_right a x) (foldl_max_le_acc l (max a x))
    · exact ih (max a b) h

theorem foldl_max_eq_or_mem (l : List Nat) (a : Nat) :
    l.foldl max a = a ∨ l.foldl max a ∈ l := by
  induction l generalizing a with
  | nil => exact Or.inl rfl
  | cons b l ih =>
    rcases ih (max a b) with h | h
    · rcases max_choice a b with hm | hm
      · exact Or.inl (by rw [List.foldl_cons, h, hm])
      · exact Or.inr (by rw [List.foldl_cons, h, hm]; exact List.mem_cons_self _ _)
    · exact Or.inr (List.mem_cons_of_mem _ h)

theorem mem_voteCounts (cv : OptionVotes) (opts : List String) (o : String) (n : Nat) :
    (o, n) ∈ voteCounts cv opts ↔ o ∈ opts ∧ n = getVoteCount cv o ∧ 0 < n := by
  unfold voteCounts
  rw [List.mem_filter, List.mem_map]
  constructor
  · rintro ⟨⟨x, hx, heq⟩, hpos⟩
    injection heq with h1 h2
    subst h1
    subst h2
    exact ⟨hx, rfl, by simpa using hpos⟩
  · rintro ⟨ho, rfl, hpos⟩
    exact ⟨⟨o, ho, rfl⟩, by simpa using hpos⟩

theorem count_le_topCount (cv : OptionVotes) (opts : List String) (o : String)
    (ho : o ∈ opts) : getVoteCount cv o ≤ topCount cv opts := by
  by_cases hpos : 0 < getVoteCount cv o
  · have hmem : (o, getVoteCount cv o) ∈ voteCounts cv opts :=
      (mem_voteCounts cv opts o _).mpr ⟨ho, rfl, hpos⟩
    exact le_foldl_max_of_mem _ 0 _ (List.mem_map_of_mem Prod.snd hmem)
  · omega

theorem topCount_attained (cv : OptionVotes) (opts : List String)
    (h : voteCounts cv opts ≠ []) :
    ∃ o ∈ opts, 0 < getVoteCount cv o ∧ getVoteCount cv o = topCount cv opts := by
  rcases foldl_max_eq_or_mem ((voteCounts cv opts).map Prod.snd) 0 with h0 | hm
  · exfalso
    obtain ⟨p, hp⟩ := List.exists_mem_of_ne_nil _ h
    obtain ⟨hpo, hpc, hppos⟩ := (mem_voteCounts cv opts p.1 p.2).mp hp
    have : p.2 ≤ topCount cv opts :=
      le_foldl_max_of_mem _ 0 _ (List.mem_map_of_mem Prod.snd hp)
    unfold topCount at this
    omega
  · rw [List.mem_map] at hm
    obtain ⟨p, hp, hval⟩ := hm
    obtain ⟨hpo, hpc, hppos⟩ := (mem_voteCounts cv opts p.1 p.2).mp hp
    refine ⟨p.1, hpo, by omega, by rw [← hpc]; exact hval⟩

theorem mem_getTopVoted (cv : OptionVotes) (opts : List String) (o : String) :
    o ∈ getTopVoted cv opts ↔
      o ∈ opts ∧ 0 < getVoteCount cv o ∧
        ∀ x ∈ opts, getVoteCount cv x ≤ getVoteCount cv o := by
  unfold getTopVoted
  by_cases he : (voteCounts cv opts).isEmpty
  · rw [if_pos he]
    simp only [List.not_mem_nil, false_iff]
    rintro ⟨ho, hpos, -⟩
    have : (o, getVoteCount cv o) ∈ voteCounts cv opts :=
      (mem_voteCounts cv opts o _).mpr ⟨ho, rfl, hpos⟩
    rw [List.isEmpty_iff] at he
    rw [he] at this
    exact List.not_mem_nil _ this
  · rw [if_neg he]
    rw [List.mem_map]
    constructor
    · rintro ⟨p, hp, rfl⟩
      rw [List.mem_filter] at hp
      obtain ⟨hp, hptop⟩ := hp
      obtain ⟨hpo, hpc, hppos⟩ := (mem_voteCounts cv opts p.1 p.2).mp hp
      rw [beq_iff_eq] at hptop
      refine ⟨hpo, by omega, ?_⟩
      intro x hx
      calc getVoteCount cv x ≤ topCount cv opts := count_le_topCount cv opts x hx
        _ = p.2 := hptop.symm
        _ = getVoteCount cv p.1 := hpc
    · rintro ⟨ho, hpos, hmax⟩
      have hne : voteCounts cv opts ≠ [] := by
        intro hnil
        rw [List.isEmpty_iff] at he
        exact he hnil
      obtain ⟨w, hw, hwpos, hwtop⟩ := topCount_attained cv opts hne
      have htop : getVoteCount cv o = topCount cv opts := by
        have h1 : getVoteCount cv o ≤ topCount cv opts := count_le_topCount cv opts o ho
        have h2 : getVoteCount cv w ≤ getVoteCount cv o := hmax w hw
        omega
      refine ⟨(o, getVoteCount cv o),
        List.mem_filter.mpr ⟨(mem_voteCounts cv opts o _).mpr ⟨ho, rfl, hpos⟩, ?_⟩, rfl⟩
      simpa using htop

theorem getTopVoted_ne_nil (cv : OptionVotes) (opts : List String)
    (h : ∃ o ∈ opts, 0 < getVoteCount cv o) : getTopVoted cv opts ≠ [] := by
  obtain ⟨o, ho, hpos⟩ := h
  have hne : voteCounts cv opts ≠ [] := by
    intro hnil
    have : (o, getVoteCount cv o) ∈ voteCounts cv opts :=
      (mem_voteCounts cv opts o _).mpr ⟨ho, rfl, hpos⟩
    rw [hnil] at this
    exact List.not_mem_nil _ this
  obtain ⟨w, hw, hwpos, hwtop⟩ := topCount_attained cv opts hne
  have : w ∈ getTopVoted cv opts := by
    rw [mem_getTopVoted]
    refine ⟨hw, hwpos, ?_⟩
    intro x hx
    rw [hwtop]
    exact count_le_topCount cv opts x hx
  exact List.ne_nil_of_mem this

theorem getTopVoted_eq_specTied (cv : OptionVotes) (opts : List String) :
    getTopVoted cv opts = specTiedFor cv opts := by
  by_cases he : (voteCounts cv opts).isEmpty
  · rw [getTopVoted, if_pos he]
    symm
    rw [specTiedFor, List.filter_eq_nil_iff]
    intro o ho
    rw [List.isEmpty_iff] at he
    simp only [Bool.and_eq_true, decide_eq_true_eq, not_and]
    intro hpos
    have hmem : (o, getVoteCount cv o) ∈ voteCounts cv opts :=
      (mem_voteCounts cv opts o _).mpr ⟨ho, rfl, hpos⟩
    rw [he] at hmem
    exact absurd hmem (List.not_mem_nil _)
  · rw [getTopVoted, if_neg he]
    rw [specTiedFor]
    unfold voteCounts
    rw [List.filter_filter, List.filter_map, List.map_map]
    have hfst : (Prod.fst ∘ fun opt : String => (opt, getVoteCount cv opt)) = id := rfl
    rw [hfst, List.map_id]
    apply List.filter_congr
    intro o ho
    rw [Bool.eq_iff_iff]
    simp only [Function.comp_apply, Bool.and_eq_true, decide_eq_true_eq, beq_iff_eq]
    constructor
    · rintro ⟨htop, hpos⟩
      refine ⟨hpos, ?_⟩
      intro x hx
      rw [htop]
      exact count_le_topCount cv opts x hx
    · rintro ⟨hpos, hmax⟩
      refine ⟨?_, hpos⟩
      have hne : voteCounts cv opts ≠ [] := by
        intro hnil
        rw [hnil] at he
        exact he rfl
      obtain ⟨w, hw, hwpos, hwtop⟩ := topCount_attained cv opts hne
      have h1 : getVoteCount cv o ≤ topCount cv opts := count_le_topCount cv opts o ho
      have h2 : getVoteCount cv w ≤ getVoteCount cv o := hmax w hw
      omega

theorem foldl_minBy_spec (rank : String → Int) (t : List String) (h : String) :
    (t.foldl (fun lowest current =>
        if rank current < rank lowest then current else lowest) h) ∈ h :: t ∧
    ∀ x ∈ h :: t,
      rank (t.foldl (fun lowest current =>
        if rank current < rank lowest then current else lowest) h) ≤ rank x := by
  induction t generalizing h with
  | nil =>
    refine ⟨List.mem_cons_self _ _, ?_⟩
    intro x hx
    rcases List.mem_cons.mp hx with rfl | hx
    · exact le_refl _
    · cases hx
  | cons b t ih =>
    simp only [List.foldl_cons]
    set h' := if rank b < rank h then b else h with hh'
    obtain ⟨hmem, hbound⟩ := ih h'
    have hh'le : rank h' ≤ rank h ∧ rank h' ≤ rank b := by
      rw [hh']
      split
      · constructor
        · omega
        · exact le_refl _
      · constructor
        · exact le_refl _
        · omega
    have hres := hbound h' (List.mem_cons_self _ _)
    constructor
    · rcases List.mem_cons.mp hmem with heq | hmem
      · rw [heq, hh']
        split
        · exact List.mem_cons_of_mem _ (List.mem_cons_self _ _)
        · exact List.mem_cons_self _ _
      · exact List.mem_cons_of_mem _ (List.mem_cons_of_mem _ hmem)
    · intro x hx
      rcases List.mem_cons.mp hx with rfl | hx
      · exact le_trans hres hh'le.1
      · rcases List.mem_cons.mp hx with rfl | hx
        · exact le_trans hres hh'le.2
        · exact hbound x (List.mem_cons_of_mem _ hx)

theorem jsIndexOf_le_of_priceLevel (a b : String)
    (ha : a ∈ budgetOptions) (hb : b ∈ budgetOptions)
    (h : jsIndexOf budgetRank a ≤ jsIndexOf budgetRank b) :
    priceLevel a ≤ priceLevel b := by
  fin_cases ha <;> fin_cases hb <;> revert h <;> decide

/-- C4: whenever at least one dietary option received a vote, the
merged dietary preference of `getMergedPreferences` is a voted option
and is the most restrictive such option in the fixed priority order
Vegan > Vegetarian > Gluten-Free > Halal > Kosher > None, independent
of vote counts. -/
theorem mergedDietary_most_restrictive (votes : Ledger) (sel : LocalSelections)
    (h : ∃ d ∈ dietaryPriority, 0 < getVoteCount (votes Category.dietary) d) :
    (getMergedPreferences votes sel).dietary ∈ dietaryPriority ∧
    0 < getVoteCount (votes Category.dietary) ((getMergedPreferences votes sel).dietary) ∧
    ∀ d ∈ dietaryPriority, 0 < getVoteCount (votes Category.dietary) d →
      dietaryRank ((getMergedPreferences votes sel).dietary) ≤ dietaryRank d := by
  have hrank : dietaryPriority.Pairwise (fun a b => dietaryRank a ≤ dietaryRank b) := by
    decide
  have hfield : (getMergedPreferences votes sel).dietary =
      (firstVoted dietaryPriority (votes Category.dietary)).getD sel.dietary := rfl
  have hsome : ∀ (l : List String),
      (∃ d ∈ l, 0 < getVoteCount (votes Category.dietary) d) →
      (firstVoted l (votes Category.dietary)).isSome := by
    intro l
    induction l with
    | nil => rintro ⟨d, hd, -⟩; cases hd
    | cons a l ih =>
      rintro ⟨d, hd, hpos⟩
      unfold firstVoted
      by_cases ha : 0 < getVoteCount (votes Category.dietary) a
      · rw [if_pos ha]; rfl
      · rw [if_neg ha]
        apply ih
        rcases List.mem_cons.mp hd with rfl | hd
        · exact absurd hpos ha
        · exact ⟨d, hd, hpos⟩
  have hspec : ∀ (l : List String),
      l.Pairwise (fun a b => dietaryRank a ≤ dietaryRank b) →
      ∀ m, firstVoted l (votes Category.dietary) = some m →
        m ∈ l ∧ 0 < getVoteCount (votes Category.dietary) m ∧
        ∀ d ∈ l, 0 < getVoteCount (votes Category.dietary) d →
          dietaryRank m ≤ dietaryRank d := by
    intro l
    induction l with
    | nil => intro _ m hm; cases hm
    | cons a l ih =>
      intro hpair m hm
      rw [List.pairwise_cons] at hpair
      obtain ⟨hhead, htail⟩ := hpair
      unfold firstVoted at hm
      by_cases ha : 0 < getVoteCount (votes Category.dietary) a
      · rw [if_pos ha] at hm
        injection hm with hm
        subst hm
        refine ⟨List.mem_cons_self _ _, ha, ?_⟩
        intro d hd hdpos
        rcases List.mem_cons.mp hd with rfl | hd
        · exact le_refl _
        · exact hhead d hd
      · rw [if_neg ha] at hm
        obtain ⟨hmem, hpos, hbound⟩ := ih htail m hm
        refine ⟨List.mem_cons_of_mem _ hmem, hpos, ?_⟩
        intro d hd hdpos
        rcases List.mem_cons.mp hd with rfl | hd
        · exact absurd hdpos ha
        · exact hbound d hd hdpos
  obtain ⟨m, hm⟩ := Option.isSome_iff_exists.mp (hsome dietaryPriority h)
  obtain ⟨hmem, hpos, hbound⟩ := hspec dietaryPriority hrank m hm
  rw [hfield, hm]
  exact ⟨hmem, hpos, hbound⟩

/-- Witness for C4: votes {Vegetarian: 1, Halal: 1} merge to
"Vegetarian", the stricter option, regardless of equal counts. -/
theorem mergedDietary_most_restrictive_witness :
    (getMergedPreferences
      (fun c => match c with
        | Category.dietary =>
            [("Vegetarian", [⟨"u1", "Alice", 1⟩]), ("Halal", [⟨"u2", "Bob", 2⟩])]
        | _ => [])
      ⟨"", "", "", "", ""⟩).dietary = "Vegetarian" ∧
    (getMergedPreferences
      (fun c => match c with
        | Category.dietary =>
            [("Vegetarian", [⟨"u1", "Alice", 1⟩]), ("Halal", [⟨"u2", "Bob", 2⟩])]
        | _ => [])
      ⟨"", "", "", "", ""⟩).dietary ∈ dietaryPriority := by
  have h := mergedDietary_most_restrictive
    (fun c => match c with
      | Category.dietary =>
          [("Vegetarian", [⟨"u1", "Alice", 1⟩]), ("Halal", [⟨"u2", "Bob", 2⟩])]
      | _ => [])
    ⟨"", "", "", "", ""⟩
    ⟨"Vegetarian", by decide, by decide⟩
  exact ⟨by rfl, h.1⟩

/-- C5: whenever at least one budget option received a vote, the merged
budget of `getMergedPreferences` is an option tied for the maximum
budget vote count, and is the cheapest such option in the order
$ < $$ < $$$ < $$$$. -/
theorem mergedBudget_cheapest (votes : Ledger) (sel : LocalSelections)
    (h : ∃ b ∈ budgetOptions, 0 < getVoteCount (votes Category.budget) b) :
    specIsTopVoted (votes Category.budget) budgetOptions
      ((getMergedPreferences votes sel).budget) ∧
    ∀ b, specIsTopVoted (votes Category.budget) budgetOptions b →
      priceLevel ((getMergedPreferences votes sel).budget) ≤ priceLevel b := by
  have hfield : (getMergedPreferences votes sel).budget =
      mergedBudgetOf (votes Category.budget) sel.budget := rfl
  have hne : getTopVoted (votes Category.budget) budgetOptions ≠ [] :=
    getTopVoted_ne_nil _ _ h
  rw [hfield]
  unfold mergedBudgetOf
  rcases htv : getTopVoted (votes Category.budget) budgetOptions with _ | ⟨hd, tl⟩
  · exact absurd htv hne
  obtain ⟨hmem, hbound⟩ := foldl_minBy_spec (jsIndexOf budgetRank) tl hd
  set m := tl.foldl (fun lowest current =>
    if jsIndexOf budgetRank current < jsIndexOf budgetRank lowest then current
    else lowest) hd with hm
  have hmtop : m ∈ getTopVoted (votes Category.budget) budgetOptions := by
    rw [htv]
    exact hmem
  have hmspec := (mem_getTopVoted _ _ m).mp hmtop
  constructor
  · exact hmspec
  · intro b hb
    have hbtop : b ∈ getTopVoted (votes Category.budget) budgetOptions := by
      rw [mem_getTopVoted]
      exact hb
    have hble : jsIndexOf budgetRank m ≤ jsIndexOf budgetRank b := by
      apply hbound
      rw [← htv]
      exact hbtop
    exact jsIndexOf_le_of_priceLevel m b hmspec.1 hb.1 hble

/-- Witness for C5: votes {$$: 2, $$$: 2} merge to $$, the cheapest of
the two-way tie. -/
theorem mergedBudget_cheapest_witness :
    specIsTopVoted
      ((fun c => match c with
        | Category.budget =>
            [("$$", [⟨"u1", "Alice", 1⟩, ⟨"u2", "Bob", 2⟩]),
             ("$$$", [⟨"u3", "Cara", 3⟩, ⟨"u4", "Dan", 4⟩])]
        | _ => []) Category.budget) budgetOptions
      ((getMergedPreferences
        (fun c => match c with
          | Category.budget =>
              [("$$", [⟨"u1", "Alice", 1⟩, ⟨"u2", "Bob", 2⟩]),
               ("$$$", [⟨"u3", "Cara", 3⟩, ⟨"u4", "Dan", 4⟩])]
          | _ => [])
        ⟨"", "", "", "", ""⟩).budget) ∧
    (getMergedPreferences
      (fun c => match c with
        | Category.budget =>
            [("$$", [⟨"u1", "Alice", 1⟩, ⟨"u2", "Bob", 2⟩]),
             ("$$$", [⟨"u3", "Cara", 3⟩, ⟨"u4", "Dan", 4⟩])]
        | _ => [])
      ⟨"", "", "", "", ""⟩).budget = "$$" := by
  have h := mergedBudget_cheapest
    (fun c => match c with
      | Category.budget =>
          [("$$", [⟨"u1", "Alice", 1⟩, ⟨"u2", "Bob", 2⟩]),
           ("$$$", [⟨"u3", "Cara", 3⟩, ⟨"u4", "Dan", 4⟩])]
      | _ => [])
    ⟨"", "", "", "", ""⟩
    ⟨"$$", by decide, by decide⟩
  exact ⟨h.1, by rfl⟩

/-- The two concrete vote ledgers of the C9 counterexample: they differ
only in whether the budget category is tied, yet produce identical
merge-engine outputs. -/
def c9LedgerA : Ledger := fun c =>
  match c with
  | Category.budget => [("$", [⟨"u1", "Alice", 1⟩])]
  | _ => []

/-- Second ledger of the C9 counterexample: the budget category holds a
two-way tie between $ and $$. -/
def c9LedgerB : Ledger := fun c =>
  match c with
  | Category.budget => [("$", [⟨"u1", "Alice", 1⟩]), ("$$", [⟨"u2", "Bob", 2⟩])]
  | _ => []

/-- C9 counterexample: the merge output reports tie presence only for
cuisine and vibe.  Two ledgers, one with no budget tie and one with a
two-way budget tie, produce the very same output record, so the output
cannot report, for each of the five categories, whether a tie was
present. -/
theorem mergedPreferences_no_budget_tie_report :
    getMergedPreferences c9LedgerA ⟨"", "", "", "", ""⟩ =
      getMergedPreferences c9LedgerB ⟨"", "", "", "", ""⟩ ∧
    specBudgetTie c9LedgerA = false ∧
    specBudgetTie c9LedgerB = true := by
  refine ⟨?_, by decide, by decide⟩
  rfl

/-- C9 amended: for every vote ledger snapshot, the merge engine's
output reports, for cuisine and for vibe (and only those two
categories), whether a tie among ≥ 2 options tied for the most votes
was present, together with the literal list of tied options. -/
theorem mergedPreferences_tie_disclosure (votes : Ledger) (sel : LocalSelections) :
    (getMergedPreferences votes sel).hasCuisineTie =
      decide (1 < (specTiedFor (votes Category.cuisine) cuisineOptions).length) ∧
    (getMergedPreferences votes sel).cuisineOptions =
      specTiedFor (votes Category.cuisine) cuisineOptions ∧
    (getMergedPreferences votes sel).hasVibeTie =
      decide (1 < (specTiedFor (votes Category.vibe) vibeOptions).length) ∧
    (getMergedPreferences votes sel).vibeOptions =
      specTiedFor (votes Category.vibe) vibeOptions := by
  have hc := getTopVoted_eq_specTied (votes Category.cuisine) cuisineOptions
  have hv := getTopVoted_eq_specTied (votes Category.vibe) vibeOptions
  refine ⟨?_, ?_, ?_, ?_⟩
  · show decide (1 < (getTopVoted (votes Category.cuisine) cuisineOptions).length) = _
    rw [hc]
  · show getTopVoted (votes Category.cuisine) cuisineOptions = _
    exact hc
  · show decide (1 < (getTopVoted (votes Category.vibe) vibeOptions).length) = _
    rw [hv]
  · show getTopVoted (votes Category.vibe) vibeOptions = _
    exact hv

/-! Activity feed ordering (`subscribeToActivities`, sessionService.ts
lines 543-576). -/

/-- An activity log entry as delivered to the display callback:
`{ id: doc.id, type, user, userColor, message, timestamp }`. -/
structure Activity where
  id : String
  type : String
  user : String
  userColor : String
  message : String
  timestamp : Nat
deriving DecidableEq, Repr

/-- Timestamp order used by the comparator
`(a, b) => a.timestamp - b.timestamp`. -/
def actLe (a b : Activity) : Prop := a.timestamp ≤ b.timestamp

/-- Strict timestamp order on activities. -/
def actLt (a b : Activity) : Prop := a.timestamp < b.timestamp

instance : DecidableRel actLe := fun a b => Nat.decLe a.timestamp b.timestamp

instance : DecidableRel actLt := fun a b => Nat.decLt a.timestamp b.timestamp

instance : IsTotal Activity actLe := ⟨fun a b => Nat.le_total a.timestamp b.timestamp⟩

instance : IsTrans Activity actLe := ⟨fun _ _ _ => Nat.le_trans⟩

instance : IsAntisymm Activity actLt :=
  ⟨fun _ _ h h' => absurd h' (Nat.lt_asymm h)⟩

/-- The client-side sort step of `subscribeToActivities`:
`activities.sort((a, b) => a.timestamp - b.timestamp)`, a stable
comparison sort by ascending timestamp, modelled as insertion sort. -/
def sortActivities (l : List Activity) : List Activity :=
  List.insertionSort actLe l

/-- C8: for every set of activity entries delivered by the store, in
whatever arrival order, the feed handed to the display callback is the
timestamp-ascending ordering of those entries: if the entries have
strictly increasing timestamps t1 < t2 < ... in some enumeration, that
enumeration is exactly what the callback receives. -/
theorem sortActivities_timestamp_ascending (l m : List Activity)
    (hperm : l.Perm m) (hsorted : m.Pairwise actLt) :
    sortActivities l = m := by
  have hsortedLe : List.Sorted actLe (sortActivities l) :=
    List.sorted_insertionSort actLe l
  have hp : (sortActivities l).Perm m :=
    (List.perm_insertionSort actLe l).trans hperm
  have hne_m : m.Pairwise (fun a b => a.timestamp ≠ b.timestamp) :=
    hsorted.imp (fun h => Nat.ne_of_lt h)
  have hne : (sortActivities l).Pairwise (fun a b => a.timestamp ≠ b.timestamp) :=
    (List.Perm.pairwise_iff (fun {a b} h => h.symm) hp).mpr hne_m
  have hlt : List.Sorted actLt (sortActivities l) := by
    have hand := hsortedLe.and hne
    exact hand.imp (fun h => Nat.lt_of_le_of_ne h.1 h.2)
  exact List.eq_of_perm_of_sorted hp hlt hsorted

/-- Witness for C8: three entries arriving in the order t3, t1, t2 are
delivered in the order t1, t2, t3. -/
theorem sortActivities_timestamp_ascending_witness :
    sortActivities
      [⟨"e3", "like", "Cara", "c3", "m3", 3⟩,
       ⟨"e1", "join", "Alice", "c1", "m1", 1⟩,
       ⟨"e2", "ready", "Bob", "c2", "m2", 2⟩] =
      [⟨"e1", "join", "Alice", "c1", "m1", 1⟩,
       ⟨"e2", "ready", "Bob", "c2", "m2", 2⟩,
       ⟨"e3", "like", "Cara", "c3", "m3", 3⟩] :=
  sortActivities_timestamp_ascending _ _ (by decide) (by decide)

end Yelpb
